import Mathlib

/-!
Verification development for the Telegram keyword-search bot.

The definitions below are a shallow embedding of the TypeScript sources:
JavaScript strings are modelled as Lean `String`s (lowercasing is ASCII,
which covers every string the claims mention), `undefined`/`null` fields
as `Option`, fallible external calls (ledger writes, message sends) as
boolean oracles with explicit exception propagation, and the MongoDB
collections as in-memory lists.
-/

namespace KeywordBot

/-- JavaScript `String.prototype.toLowerCase` (ASCII fragment). -/
def jsToLower (s : String) : String :=
  ⟨s.data.map Char.toLower⟩

/-- JavaScript `hay.includes(needle)` on char lists: does `needle` occur as a
contiguous run inside `hay`? -/
def includesL : List Char → List Char → Bool
  | [], needle => needle.isEmpty
  | c :: rest, needle => needle.isPrefixOf (c :: rest) || includesL rest needle

/-- JavaScript `hay.includes(needle)`. -/
def jsIncludes (hay needle : String) : Bool :=
  includesL hay.toList needle.toList

/-- JavaScript whitespace class `\s` (ASCII fragment used by `trim` and `split`). -/
def isWsChar (c : Char) : Bool :=
  c == ' ' || c == '\t' || c == '\n' || c == '\r' || c == '\x0b' || c == '\x0c'

/-- JavaScript `String.prototype.trim`. -/
def jsTrim (s : String) : String :=
  ⟨((s.toList.dropWhile isWsChar).reverse.dropWhile isWsChar).reverse⟩

/-- Regex word character `\w`, i.e. `[A-Za-z0-9_]`. -/
def isWordChar (c : Char) : Bool :=
  c.isAlpha || c.isDigit || c == '_'

/-- Word-character test for a possibly missing character (positions outside the
string count as non-word characters for `\b`). -/
def optIsWord : Option Char → Bool
  | none => false
  | some c => isWordChar c

/-- Boundary conditions for matching `\b<needle>\b` at the head of `hay`,
where `prev` is the character just before the match position. -/
def boundaryOk (prev : Option Char) (needle hay : List Char) : Bool :=
  (optIsWord prev != optIsWord needle.head?) &&
  (optIsWord needle.getLast? != optIsWord (hay.drop needle.length).head?)

/-- Does `\b<needle>\b` match exactly at the head of `hay`? -/
def matchesAt (needle hay : List Char) (prev : Option Char) : Bool :=
  needle.isPrefixOf hay && boundaryOk prev needle hay

/-- Scan of `hay` for a `\b<needle>\b` occurrence, tracking the previous character. -/
def wbScan (needle : List Char) (prev : Option Char) : List Char → Bool
  | [] => matchesAt needle [] prev
  | c :: rest => matchesAt needle (c :: rest) prev || wbScan needle (some c) rest

/-- Embedding of `new RegExp(` ++ "backslash-b + escapeRegex(needle) + backslash-b" ++ `).test(hay)`:
the keyword is regex-escaped in the source, so it matches only literally. -/
def wordBoundaryTestL (needle hay : List Char) : Bool :=
  wbScan needle none hay

/-- String version of `wordBoundaryTestL`. -/
def wordBoundaryTest (needle hay : String) : Bool :=
  wordBoundaryTestL needle.toList hay.toList

/-- Helper for `splitWhitespace`: accumulates the current token (reversed). -/
def splitWsAux : List Char → List Char → List (List Char)
  | acc, [] => if acc.isEmpty then [] else [acc.reverse]
  | acc, c :: rest =>
    if isWsChar c then
      if acc.isEmpty then splitWsAux [] rest
      else acc.reverse :: splitWsAux [] rest
    else splitWsAux (c :: acc) rest

/-- JavaScript `s.split(/\s+/)` restricted to trimmed input: splits on maximal
whitespace runs. (On the empty string JS returns `[""]` while this returns `[]`;
both fail the `length > 1` guard at the only use site.) -/
def splitWhitespace (s : List Char) : List (List Char) :=
  splitWsAux [] s

/-- Normalised message context built by the ingestion adapter
(`TelegramUserbotService.handleNewMessage` / `handleEditMessage`). -/
structure MessageContext where
  chatId : Int
  messageId : Int
  text : String
  senderId : Int
  senderName : Option String
  chatTitle : Option String
  messageLength : Int
deriving DecidableEq, Repr

/-- User record as stored by the Mongoose `UserSchema`. -/
structure MUser where
  id : String
  telegramId : Int
  isAuthenticated : Bool
  isActive : Bool
  keywords : List String
  characterLimit : Int
  notificationGroups : List Int
deriving DecidableEq, Repr

/-- Ledger entry written by `KeywordMatchModel.createMatch`. -/
structure LedgerEntry where
  userId : String
  keyword : String
  message : String
  chatId : Int
  messageId : Int
  chatTitle : Option String
  senderName : Option String
  messageLength : Int
deriving DecidableEq, Repr

/-- One transport-level notification attempt (destination chat id plus the
match it reports). -/
structure NotifAttempt where
  userId : String
  keyword : String
  dest : Int
deriving DecidableEq, Repr

/-- `UserModel.getAllActiveUsers` (Mongoose variant used by the userbot):
`find({ isAuthenticated: true, isActive: true })`. -/
def getAllActiveUsers (db : List MUser) : List MUser :=
  db.filter (fun u => u.isAuthenticated && u.isActive)

/-- The per-keyword filter in `checkKeywordMatches`:
`messageContext.text.toLowerCase().includes(keyword.toLowerCase())`. -/
def keywordFilterHit (M : MessageContext) (k : String) : Bool :=
  jsIncludes (jsToLower M.text) (jsToLower k)

/-- `user.keywords.filter(keyword => messageContext.text.toLowerCase().includes(keyword.toLowerCase()))`. -/
def matchedKeywords (u : MUser) (M : MessageContext) : List String :=
  u.keywords.filter (keywordFilterHit M)

/-- The ledger entry `createMatch` receives for one (user, keyword) match. -/
def entryOf (u : MUser) (M : MessageContext) (k : String) : LedgerEntry :=
  ⟨u.id, k, M.text, M.chatId, M.messageId, M.chatTitle, M.senderName, M.messageLength⟩

/-- `TelegramBotService.sendNotification`: attempts one telegram send
(which may fail per `sendOk`), catches and logs any failure, never rethrows.
Returns the destinations attempted and the (always ok) outcome. -/
def botSendNotification (dest : Int) (sendOk : Int → Bool) :
    List Int × Except Unit Unit :=
  match (if sendOk dest then Except.ok () else Except.error ()) with
  | Except.ok _ => ([dest], Except.ok ())
  | Except.error _ => ([dest], Except.ok ())

/-- Loop body of `sendKeywordNotification` over `user.notificationGroups`:
each group send sits in its own try/catch, so a failure is logged and the
loop continues. Returns all transport attempts. -/
def sendToGroups (groups : List Int) (sendOk : Int → Bool) : List Int :=
  match groups with
  | [] => []
  | g :: gs =>
    ((botSendNotification g sendOk).1) ++ sendToGroups gs sendOk

/-- `TelegramUserbotService.sendKeywordNotification`: the whole body is inside
a try/catch, group sends additionally each have their own try/catch, and with
no configured groups it falls back to a single send to `user.telegramId`.
Returns the attempted destinations and the outcome seen by the caller. -/
def sendKeywordNotificationE (u : MUser) (sendOk : Int → Bool) :
    List Int × Except Unit Unit :=
  if !u.notificationGroups.isEmpty then
    (sendToGroups u.notificationGroups sendOk, Except.ok ())
  else
    match botSendNotification u.telegramId sendOk with
    | (as, Except.ok _) => (as, Except.ok ())
    | (as, Except.error _) => (as, Except.ok ())

/-- Notification attempts recorded for one (user, keyword) match. -/
def notifsOf (u : MUser) (k : String) (sendOk : Int → Bool) : List NotifAttempt :=
  (sendKeywordNotificationE u sendOk).1.map (fun d => ⟨u.id, k, d⟩)

/-- Inner loop of `checkKeywordMatches` over the matched keywords of one user:
`createMatch` (which may throw per `saveOk`) then `sendKeywordNotification`
(which never throws). A throw aborts the rest; the `Bool` reports it. -/
def processKeywordsE (u : MUser) (M : MessageContext)
    (saveOk : String → String → Bool) (sendOk : Int → Bool) :
    List String → List LedgerEntry × List NotifAttempt × Bool
  | [] => ([], [], false)
  | k :: ks =>
    if saveOk u.id k then
      let rest := processKeywordsE u M saveOk sendOk ks
      (entryOf u M k :: rest.1, notifsOf u k sendOk ++ rest.2.1, rest.2.2)
    else ([], [], true)

/-- Outer loop of `checkKeywordMatches` over the fetched users: skip a user
with an empty keyword list, skip a user whose character limit the message
exceeds, otherwise persist and notify each matched keyword. An exception from
one user's pass propagates to the single surrounding try/catch, so the
remaining users are not processed. -/
def processUsersE (M : MessageContext)
    (saveOk : String → String → Bool) (sendOk : Int → Bool) :
    List MUser → List LedgerEntry × List NotifAttempt
  | [] => ([], [])
  | u :: us =>
    if u.keywords.isEmpty then processUsersE M saveOk sendOk us
    else if M.messageLength > u.characterLimit then processUsersE M saveOk sendOk us
    else
      let r := processKeywordsE u M saveOk sendOk (matchedKeywords u M)
      if r.2.2 then (r.1, r.2.1)
      else
        let rest := processUsersE M saveOk sendOk us
        (r.1 ++ rest.1, r.2.1 ++ rest.2)

/-- `TelegramUserbotService.checkKeywordMatches` with explicit failure oracles:
returns the ledger entries actually persisted and the notification attempts
actually made. -/
def checkKeywordMatchesE (db : List MUser) (M : MessageContext)
    (saveOk : String → String → Bool) (sendOk : Int → Bool) :
    List LedgerEntry × List NotifAttempt :=
  processUsersE M saveOk sendOk (getAllActiveUsers db)

/-- `checkKeywordMatches` on the failure-free path (every ledger write and
send succeeds). -/
def checkKeywordMatchesRun (db : List MUser) (M : MessageContext) :
    List LedgerEntry × List NotifAttempt :=
  checkKeywordMatchesE db M (fun _ _ => true) (fun _ => true)

/-! ## KeywordSearchService.isKeywordMatch (the three fallback strategies) -/

/-- Strategy (a) of `isKeywordMatch`: substring containment of the normalised
keyword in the message text (`messageText.includes(normalizedKeyword)`). -/
def substrStrategy (messageText keyword : String) : Bool :=
  jsIncludes messageText (jsTrim (jsToLower keyword))

/-- Strategy (b) of `isKeywordMatch`: the regex-escaped normalised keyword as a
whole word (`wordBoundaryRegex.test(messageText)`). -/
def wordBoundaryStrategy (messageText keyword : String) : Bool :=
  wordBoundaryTest (jsTrim (jsToLower keyword)) messageText

/-- Strategy (c) of `isKeywordMatch`: the normalised keyword splits into more
than one whitespace-separated token and every token appears in the message as
a substring or as a bounded word. -/
def compoundStrategy (messageText keyword : String) : Bool :=
  let keywordWords := splitWhitespace (jsTrim (jsToLower keyword)).toList
  decide (1 < keywordWords.length) &&
    keywordWords.all (fun w =>
      includesL messageText.toList w || wordBoundaryTestL w messageText.toList)

/-- `KeywordSearchService.isKeywordMatch`: normalise the keyword
(`keyword.toLowerCase().trim()`), then try exact substring containment, then
the word-boundary regex, then the compound multi-word fallback, returning on
the first success. -/
def isKeywordMatch (messageText keyword : String) : Bool :=
  let normalizedKeyword := jsTrim (jsToLower keyword)
  if jsIncludes messageText normalizedKeyword then true
  else if wordBoundaryTest normalizedKeyword messageText then true
  else
    let keywordWords := splitWhitespace normalizedKeyword.toList
    if 1 < keywordWords.length then
      if keywordWords.all (fun w =>
          includesL messageText.toList w || wordBoundaryTestL w messageText.toList) then
        true
      else false
    else false

/-! ## UserModel operations -/

/-- MongoDB `$addToSet` on an array of strings: append the value unless an
element equal to it (exact string equality) is already present. -/
def addToSet (l : List String) (k : String) : List String :=
  if k ∈ l then l else l ++ [k]

/-- `UserModel.addKeyword`: `updateOne({ telegramId }, { $addToSet: { keywords: keyword } })`. -/
def addKeyword (u : MUser) (keyword : String) : MUser :=
  { u with keywords := addToSet u.keywords keyword }

/-- The value `UserModel.setCharacterLimit` stores:
`Math.max(1, Math.min(1000, characterLimit))`. -/
def setCharacterLimitValue (characterLimit : Int) : Int :=
  max 1 (min 1000 characterLimit)

/-- `UserModel.setCharacterLimit` applied to one user record. -/
def setCharacterLimit (u : MUser) (characterLimit : Int) : MUser :=
  { u with characterLimit := setCharacterLimitValue characterLimit }

/-- No two keywords equal under case-insensitive comparison (the spec's
keyword-set invariant). -/
def noCaseDup (l : List String) : Prop :=
  (l.map jsToLower).Nodup

/-! ## Message ingestion (handleNewMessage / handleEditMessage) -/

/-- The `message.message` field of a raw platform event: either a string body
or some non-string payload (media etc.). -/
inductive RawBody
  | str (s : String)
  | nonString
deriving DecidableEq, Repr

/-- Raw platform message as the handlers see it; absent fields are `none`. -/
structure RawMessage where
  message : Option RawBody
  chatId : Option Int
  id : Option Int
  senderId : Option Int
deriving DecidableEq, Repr

/-- Raw platform event (`event.message` may be absent). -/
structure RawEvent where
  message : Option RawMessage
deriving DecidableEq, Repr

/-- Shared body of `handleNewMessage` and `handleEditMessage` (the two methods
are textually identical): validate the event and build the canonical
`MessageContext`, or drop the event by returning `none`. The JS guards are
`!message || !message.message || typeof message.message !== 'string'` and
`!chatId || !messageId || !senderId` (ids stringified via `?.toString()`, so a
missing id is `undefined` and falsy; `message.id` is used raw, so `0` is also
falsy; an empty body string is falsy). `chatTitle` / `senderName` come from
best-effort lookups and are passed in here. -/
def normalizeEvent (e : RawEvent) (chatTitle senderName : Option String) :
    Option MessageContext :=
  match e.message with
  | none => none
  | some m =>
    match m.message with
    | none => none
    | some RawBody.nonString => none
    | some (RawBody.str t) =>
      if t.data.isEmpty then none
      else
        match m.chatId, m.id, m.senderId with
        | some cid, some mid, some sid =>
          if mid == 0 then none
          else some ⟨cid, mid, t, sid, senderName, chatTitle, (t.length : Int)⟩
        | _, _, _ => none

/-- `handleNewMessage` followed by `checkKeywordMatches` on the failure-free
path: the ledger entries written and notifications attempted for one event. -/
def ingestNewMessage (db : List MUser) (e : RawEvent)
    (chatTitle senderName : Option String) :
    List LedgerEntry × List NotifAttempt :=
  match normalizeEvent e chatTitle senderName with
  | none => ([], [])
  | some ctx => checkKeywordMatchesRun db ctx

/-- `handleEditMessage` followed by `checkKeywordMatches`; the handler body is
textually identical to `handleNewMessage`. -/
def ingestEditMessage (db : List MUser) (e : RawEvent)
    (chatTitle senderName : Option String) :
    List LedgerEntry × List NotifAttempt :=
  match normalizeEvent e chatTitle senderName with
  | none => ([], [])
  | some ctx => checkKeywordMatchesRun db ctx

/-! ## KeywordMatchModel.getMatchStats -/

/-- One row of the `keyword_matches` collection as `getMatchStats` reads it
(timestamps as integers, e.g. epoch milliseconds). -/
structure MatchRow where
  userId : String
  keyword : String
  messageLength : Int
  timestamp : Int
deriving DecidableEq, Repr

/-- The result record of `getMatchStats`. -/
structure MatchStats where
  totalMatches : Nat
  averageMessageLength : Int
  topKeywords : List (String × Nat)
deriving DecidableEq, Repr

/-- The `find(query)` filter of `getMatchStats`: `timestamp: { $gte: cutoff }`
plus the optional `userId` equality. -/
def windowMatches (rows : List MatchRow) (userId : Option String) (cutoff : Int) :
    List MatchRow :=
  rows.filter (fun r =>
    decide (cutoff ≤ r.timestamp) &&
      match userId with
      | none => true
      | some uid => r.userId == uid)

/-- `keywordCounts[match.keyword] = (keywordCounts[match.keyword] || 0) + 1`
on an insertion-ordered association list: bump in place if the key exists,
append otherwise. -/
def bumpCount (counts : List (String × Nat)) (k : String) : List (String × Nat) :=
  match counts with
  | [] => [(k, 1)]
  | (k', c) :: rest => if k' = k then (k', c + 1) :: rest else (k', c) :: bumpCount rest k

/-- The `keywordCounts` object after the `matches.forEach` loop. -/
def countsOf (rows : List MatchRow) : List (String × Nat) :=
  rows.foldl (fun acc r => bumpCount acc r.keyword) []

/-- Is `s` a canonical JavaScript array-index key (the canonical decimal form
of an integer below 2^32 - 1, i.e. all digits with no leading zero)?
Returns its numeric value if so. -/
def jsArrayIndex (s : String) : Option Nat :=
  match s.data with
  | [] => none
  | c :: cs =>
    if (c :: cs).all Char.isDigit && (decide (c ≠ '0') || cs.isEmpty) then
      let v := (c :: cs).foldl (fun a d => a * 10 + (d.toNat - 48)) 0
      if v < 4294967295 then some v else none
    else none

/-- Insert into a list sorted ascending by array-index value. -/
def insertAscByIndex (x : String × Nat) : List (String × Nat) → List (String × Nat)
  | [] => [x]
  | y :: ys =>
    if (jsArrayIndex y.1).getD 0 ≤ (jsArrayIndex x.1).getD 0 then
      y :: insertAscByIndex x ys
    else x :: y :: ys

/-- Sort ascending by array-index value (insertion sort). -/
def sortAscByIndex (l : List (String × Nat)) : List (String × Nat) :=
  l.foldl (fun acc x => insertAscByIndex x acc) []

/-- JavaScript `Object.entries` on a string-keyed object built in insertion
order: own keys that are canonical array indices are enumerated first in
ascending numeric order, the remaining string keys in insertion order. -/
def jsObjectEntries (l : List (String × Nat)) : List (String × Nat) :=
  sortAscByIndex (l.filter (fun p => (jsArrayIndex p.1).isSome)) ++
    l.filter (fun p => (jsArrayIndex p.1).isNone)

/-- Stable insertion for the descending-by-count sort: a new element goes
after every existing element with a count greater than or equal to its own. -/
def insertDescCount (x : String × Nat) : List (String × Nat) → List (String × Nat)
  | [] => [x]
  | y :: ys => if x.2 ≤ y.2 then y :: insertDescCount x ys else x :: y :: ys

/-- `.sort((a, b) => b.count - a.count)`: the ECMAScript sort is stable, so
entries with equal counts keep their enumeration order. -/
def stableSortByCountDesc (l : List (String × Nat)) : List (String × Nat) :=
  l.foldl (fun acc x => insertDescCount x acc) []

/-- JavaScript `Math.round` (half-up) on a rational. -/
def jsRound (q : ℚ) : ℤ :=
  Rat.floor (q + 1 / 2)

/-- `KeywordMatchModel.getMatchStats`: total match count, rounded average
message length (0 with no matches), and the top 10 keywords from
`Object.entries(keywordCounts).sort((a, b) => b.count - a.count).slice(0, 10)`. -/
def getMatchStats (rows : List MatchRow) (userId : Option String) (cutoff : Int) :
    MatchStats :=
  let ms := windowMatches rows userId cutoff
  let totalMatches := ms.length
  let averageMessageLength : Int :=
    if 0 < ms.length then
      jsRound ((((ms.map (fun r => r.messageLength)).sum : Int) : ℚ) /
        (ms.length : ℚ))
    else 0
  let topKeywords :=
    (stableSortByCountDesc (jsObjectEntries (countsOf ms))).take 10
  ⟨totalMatches, averageMessageLength, topKeywords⟩

/-- Modelled from the spec: the spec's tie-breaking rule for `aggregateStats`
("descending count, ties broken by first-seen insertion order"), i.e. a stable
descending sort of the counts in pure insertion order, without JavaScript's
array-index key reordering. Used only to compare against `getMatchStats`. -/
def specTopKeywordsFirstSeen (w : List MatchRow) : List (String × Nat) :=
  (stableSortByCountDesc (countsOf w)).take 10

/-! ## Derived closed forms of the failure-free engine (used in proofs) -/

/-- Ledger entries `checkKeywordMatches` writes for one fetched user on the
failure-free path. -/
def userEntries (M : MessageContext) (u : MUser) : List LedgerEntry :=
  if u.keywords.isEmpty then []
  else if M.messageLength > u.characterLimit then []
  else (matchedKeywords u M).map (entryOf u M)

/-- Notification attempts `checkKeywordMatches` makes for one fetched user on
the failure-free path. -/
def userNotifs (M : MessageContext) (u : MUser) : List NotifAttempt :=
  if u.keywords.isEmpty then []
  else if M.messageLength > u.characterLimit then []
  else ((matchedKeywords u M).map (fun k => notifsOf u k (fun _ => true))).flatten

/-- The count stored in an insertion-ordered count list for key `k` (0 when
the key is absent). -/
def keyCount : List (String × Nat) → String → Nat
  | [], _ => 0
  | (k', c) :: rest, k => if k' = k then c else keyCount rest k

/-! ## Concrete fixtures for counterexamples and witnesses -/

/-- A user with a single keyword, for the `addKeyword` claims. -/
def exUserFoo : MUser := ⟨"u1", 1, true, true, ["foo"], 100, []⟩

/-- First of two active users whose keyword matches the sample message. -/
def exUserA : MUser := ⟨"u1", 1, true, true, ["alpha"], 100, []⟩

/-- Second of two active users whose keyword matches the sample message. -/
def exUserB : MUser := ⟨"u2", 2, true, true, ["alpha"], 100, []⟩

/-- An authenticated user whose active flag is cleared. -/
def exUserInactive : MUser := ⟨"u9", 9, true, false, ["alpha"], 100, []⟩

/-- An active user with character limit 2. -/
def exUserTiny : MUser := ⟨"u3", 3, true, true, ["a"], 2, []⟩

/-- Sample message context containing the keyword "alpha". -/
def exMsgAlpha : MessageContext := ⟨10, 20, "alpha beta", 30, none, none, 10⟩

/-- Sample message context of length 3 (exceeds `exUserTiny`'s limit). -/
def exMsgAbc : MessageContext := ⟨10, 20, "abc", 30, none, none, 3⟩

/-- A ledger-write oracle that fails exactly on user id "u1". -/
def exSaveFailA : String → String → Bool := fun uid _ => !(uid == "u1")

/-- A raw event whose sender id is missing (e.g. a service message). -/
def exEventNoSender : RawEvent :=
  ⟨some ⟨some (RawBody.str "hello"), some 1, some 2, none⟩⟩

/-- Two in-window matches whose keywords are the numeric strings "1" and "0". -/
def exRowsNumericTie : List MatchRow := [⟨"u", "1", 5, 0⟩, ⟨"u", "0", 7, 0⟩]

/-- Three in-window matches for keywords "a", "a", "b" (the spec's example). -/
def exRowsAAB : List MatchRow := [⟨"u", "a", 3, 5⟩, ⟨"u", "a", 5, 5⟩, ⟨"u", "b", 4, 5⟩]

/-! ## Theorems -/

theorem processKeywordsE_allOk (u : MUser) (M : MessageContext) (sendOk : Int → Bool) :
    ∀ ks : List String,
      processKeywordsE u M (fun _ _ => true) sendOk ks =
        (ks.map (entryOf u M), (ks.map (fun k => notifsOf u k sendOk)).flatten, false) := by
  intro ks
  induction ks with
  | nil => rfl
  | cons k ks ih => simp [processKeywordsE, ih]

theorem processUsersE_allOk (M : MessageContext) :
    ∀ us : List MUser,
      processUsersE M (fun _ _ => true) (fun _ => true) us =
        ((us.map (userEntries M)).flatten, (us.map (userNotifs M)).flatten) := by
  intro us
  induction us with
  | nil => rfl
  | cons u us ih =>
    simp only [processUsersE, List.map_cons, List.flatten_cons]
    by_cases h1 : u.keywords.isEmpty
    · simp [h1, ih, userEntries, userNotifs]
    · by_cases h2 : M.messageLength > u.characterLimit
      · simp [h1, h2, ih, userEntries, userNotifs]
      · simp [h1, h2, ih, userEntries, userNotifs, processKeywordsE_allOk]

theorem checkKeywordMatchesRun_eq (db : List MUser) (M : MessageContext) :
    checkKeywordMatchesRun db M =
      (((getAllActiveUsers db).map (userEntries M)).flatten,
       ((getAllActiveUsers db).map (userNotifs M)).flatten) :=
  processUsersE_allOk M (getAllActiveUsers db)

theorem mem_userEntries_userId {M : MessageContext} {v : MUser} {e : LedgerEntry} :
    e ∈ userEntries M v → e.userId = v.id := by
  intro he
  unfold userEntries at he
  split at he
  · simp at he
  · split at he
    · simp at he
    · rcases List.mem_map.mp he with ⟨k, _, rfl⟩
      rfl

theorem mem_userNotifs_userId {M : MessageContext} {v : MUser} {n : NotifAttempt} :
    n ∈ userNotifs M v → n.userId = v.id := by
  intro hn
  unfold userNotifs at hn
  split at hn
  · simp at hn
  · split at hn
    · simp at hn
    · rcases List.mem_flatten.mp hn with ⟨l, hl, hnl⟩
      rcases List.mem_map.mp hl with ⟨k, _, rfl⟩
      rcases List.mem_map.mp hnl with ⟨d, _, rfl⟩
      rfl

theorem userEntries_eq_nil_of_limit {M : MessageContext} {u : MUser}
    (h : u.characterLimit < M.messageLength) : userEntries M u = [] := by
  have h' : M.messageLength > u.characterLimit := h
  unfold userEntries
  by_cases h1 : u.keywords.isEmpty
  · rw [if_pos h1]
  · rw [if_neg h1, if_pos h']

theorem userNotifs_eq_nil_of_limit {M : MessageContext} {u : MUser}
    (h : u.characterLimit < M.messageLength) : userNotifs M u = [] := by
  have h' : M.messageLength > u.characterLimit := h
  unfold userNotifs
  by_cases h1 : u.keywords.isEmpty
  · rw [if_pos h1]
  · rw [if_neg h1, if_pos h']

theorem entries_count_zero (M : MessageContext) (us : List MUser)
    (p : LedgerEntry → Bool)
    (h : ∀ v ∈ us, ∀ e ∈ userEntries M v, p e = false) :
    ((us.map (userEntries M)).flatten).countP p = 0 := by
  rw [List.countP_flatten, List.map_map]
  apply List.sum_eq_zero
  intro x hx
  rcases List.mem_map.mp hx with ⟨v, hv, rfl⟩
  exact List.countP_eq_zero.mpr (fun e he => by rw [h v hv e he]; simp)

theorem notifs_count_zero (M : MessageContext) (us : List MUser)
    (p : NotifAttempt → Bool)
    (h : ∀ v ∈ us, ∀ n ∈ userNotifs M v, p n = false) :
    ((us.map (userNotifs M)).flatten).countP p = 0 := by
  rw [List.countP_flatten, List.map_map]
  apply List.sum_eq_zero
  intro x hx
  rcases List.mem_map.mp hx with ⟨v, hv, rfl⟩
  exact List.countP_eq_zero.mpr (fun n hn => by rw [h v hv n hn]; simp)

theorem sum_entries_count_one (M : MessageContext) (u : MUser) (k : String)
    (hkw : u.keywords.count k = 1)
    (hhit : keywordFilterHit M k = true)
    (hlen : M.messageLength ≤ u.characterLimit) :
    ∀ us : List MUser,
      us.countP (fun v => v.id == u.id) = 1 → u ∈ us →
      ((us.map (userEntries M)).flatten).countP
        (fun e => e.userId == u.id && e.keyword == k) = 1 := by
  have hne : ¬ u.keywords.isEmpty = true := by
    rw [List.isEmpty_iff]
    intro hnil
    rw [hnil] at hkw
    simp at hkw
  have hcount_u : (userEntries M u).countP
      (fun e => e.userId == u.id && e.keyword == k) = 1 := by
    unfold userEntries
    rw [if_neg hne, if_neg (not_lt.mpr hlen), List.countP_map]
    have : ((fun e : LedgerEntry => e.userId == u.id && e.keyword == k) ∘ entryOf u M) =
        (fun k' => k' == k) := by
      funext k'
      simp [entryOf, Function.comp]
    rw [this]
    rw [← List.count_eq_countP]
    unfold matchedKeywords
    rw [List.count_filter hhit]
    exact hkw
  have hzero : ∀ v : MUser, (v.id == u.id) = false →
      (userEntries M v).countP (fun e => e.userId == u.id && e.keyword == k) = 0 := by
    intro v hv
    apply List.countP_eq_zero.mpr
    intro e he
    rw [mem_userEntries_userId he, hv]
    simp
  intro us
  induction us with
  | nil => intro h1 h2; simp at h2
  | cons v us ih =>
    intro hcnt hmem
    rw [List.map_cons, List.flatten_cons, List.countP_append]
    rw [List.countP_cons] at hcnt
    by_cases hv : (v.id == u.id) = true
    · rw [if_pos hv] at hcnt
      have hus0 : us.countP (fun v => v.id == u.id) = 0 := by omega
      have huv : u = v := by
        rcases List.mem_cons.mp hmem with h | h
        · exact h
        · exfalso
          have := List.countP_eq_zero.mp hus0 u h
          exact this (beq_self_eq_true u.id)
      have hrest : ((us.map (userEntries M)).flatten).countP
          (fun e => e.userId == u.id && e.keyword == k) = 0 := by
        apply entries_count_zero
        intro w hw e he
        have hwid := List.countP_eq_zero.mp hus0 w hw
        rw [mem_userEntries_userId he]
        rw [Bool.not_eq_true] at hwid
        rw [hwid]
        simp
      rw [hrest, ← huv, hcount_u]
    · rw [if_neg hv] at hcnt
      have hmem' : u ∈ us := by
        rcases List.mem_cons.mp hmem with h | h
        · exfalso
          rw [h] at hv
          exact hv (beq_self_eq_true v.id)
        · exact h
      rw [hzero v (by rwa [Bool.not_eq_true] at hv)]
      have := ih (by omega) hmem'
      omega

/-- C1: for every user returned by the active-user query holding keyword K,
and every message within the user's character limit whose lowercased text
contains the lowercased K as a substring, the failure-free evaluation pass
records the pair (U, K): the corresponding ledger entry is among the entries
written, and — provided the query returns exactly one user with U's id and K
occurs once in U's keyword list — exactly one such entry is written for the
(user, keyword, message) triple. -/
theorem evaluate_includes_match_and_single_entry :
    ∀ (db : List MUser) (M : MessageContext) (u : MUser) (k : String),
      u ∈ getAllActiveUsers db →
      k ∈ u.keywords →
      M.messageLength ≤ u.characterLimit →
      jsIncludes (jsToLower M.text) (jsToLower k) = true →
      (entryOf u M k ∈ (checkKeywordMatchesRun db M).1 ∧
        ((getAllActiveUsers db).countP (fun v => v.id == u.id) = 1 →
          u.keywords.count k = 1 →
          (checkKeywordMatchesRun db M).1.countP
            (fun e => e.userId == u.id && e.keyword == k) = 1)) := by
  intro db M u k hmem hk hlen hhit
  rw [checkKeywordMatchesRun_eq]
  constructor
  · apply List.mem_flatten.mpr
    refine ⟨userEntries M u, List.mem_map_of_mem _ hmem, ?_⟩
    unfold userEntries
    rw [if_neg, if_neg (not_lt.mpr hlen)]
    · exact List.mem_map_of_mem _
        (List.mem_filter.mpr ⟨hk, by simpa [keywordFilterHit] using hhit⟩)
    · rw [List.isEmpty_iff]
      intro hnil
      rw [hnil] at hk
      simp at hk
  · intro hone hkw
    exact sum_entries_count_one M u k hkw (by simpa [keywordFilterHit] using hhit)
      hlen (getAllActiveUsers db) hone hmem

/-- Witness for the C1 theorem: one active user with keyword "alpha" and the
message "alpha beta" of length 10 within the limit 100. -/
theorem evaluate_includes_match_and_single_entry_witness :
    entryOf exUserA exMsgAlpha "alpha" ∈ (checkKeywordMatchesRun [exUserA] exMsgAlpha).1 ∧
    (checkKeywordMatchesRun [exUserA] exMsgAlpha).1.countP
      (fun e => e.userId == exUserA.id && e.keyword == "alpha") = 1 := by
  have h := evaluate_includes_match_and_single_entry [exUserA] exMsgAlpha exUserA "alpha"
    (by decide) (by decide) (by decide) (by decide)
  exact ⟨h.1, h.2 (by decide) (by decide)⟩

/-- C2: a message longer than a user's character limit produces nothing for
that user on the failure-free evaluation pass — no ledger entry carries the
user's id and no notification attempt does, whatever the user's keywords are
(the id-uniqueness hypothesis mirrors the unique index on user ids). -/
theorem character_limit_gates_user :
    ∀ (db : List MUser) (M : MessageContext) (u : MUser),
      (∀ v ∈ db, v.id = u.id → v = u) →
      u.characterLimit < M.messageLength →
      (checkKeywordMatchesRun db M).1.countP (fun e => e.userId == u.id) = 0 ∧
      (checkKeywordMatchesRun db M).2.countP (fun n => n.userId == u.id) = 0 := by
  intro db M u huniq hlen
  rw [checkKeywordMatchesRun_eq]
  constructor
  · apply entries_count_zero
    intro v hv e he
    by_cases hvid : v.id = u.id
    · have hv_db : v ∈ db := (List.mem_filter.mp hv).1
      have := huniq v hv_db hvid
      rw [this] at he
      rw [userEntries_eq_nil_of_limit hlen] at he
      simp at he
    · rw [mem_userEntries_userId he]
      exact beq_eq_false_iff_ne.mpr hvid
  · apply notifs_count_zero
    intro v hv n hn
    by_cases hvid : v.id = u.id
    · have hv_db : v ∈ db := (List.mem_filter.mp hv).1
      have := huniq v hv_db hvid
      rw [this] at hn
      rw [userNotifs_eq_nil_of_limit hlen] at hn
      simp at hn
    · rw [mem_userNotifs_userId hn]
      exact beq_eq_false_iff_ne.mpr hvid

/-- Witness for the C2 theorem: the message "abc" of length 3 against a user
with character limit 2 and the matching keyword "a". -/
theorem character_limit_gates_user_witness :
    (checkKeywordMatchesRun [exUserTiny] exMsgAbc).1.countP
      (fun e => e.userId == exUserTiny.id) = 0 ∧
    (checkKeywordMatchesRun [exUserTiny] exMsgAbc).2.countP
      (fun n => n.userId == exUserTiny.id) = 0 :=
  character_limit_gates_user [exUserTiny] exMsgAbc exUserTiny (by decide) (by decide)

/-- C7: the set of users the engine evaluates is exactly the directory
filtered on both the authenticated and the active flag, and a user whose
authenticated flag is set but whose active flag is cleared is never fetched,
so the failure-free pass writes no ledger entry and attempts no notification
carrying that user's id. -/
theorem active_query_requires_both_flags :
    ∀ (db : List MUser) (M : MessageContext) (u : MUser),
      (u ∈ getAllActiveUsers db ↔
        u ∈ db ∧ u.isAuthenticated = true ∧ u.isActive = true) ∧
      (u.isAuthenticated = true → u.isActive = false →
        (∀ v ∈ db, v.id = u.id → v = u) →
        (checkKeywordMatchesRun db M).1.countP (fun e => e.userId == u.id) = 0 ∧
        (checkKeywordMatchesRun db M).2.countP (fun n => n.userId == u.id) = 0) := by
  intro db M u
  constructor
  · simp [getAllActiveUsers, List.mem_filter, Bool.and_eq_true, and_assoc]
  · intro hauth hact huniq
    rw [checkKeywordMatchesRun_eq]
    have hvid_false : ∀ v ∈ getAllActiveUsers db, (v.id == u.id) = false := by
      intro v hv
      rcases List.mem_filter.mp hv with ⟨hv_db, hflags⟩
      rw [Bool.and_eq_true] at hflags
      obtain ⟨_, hvact⟩ := hflags
      apply beq_eq_false_iff_ne.mpr
      intro hvid
      have := huniq v hv_db hvid
      rw [this] at hvact
      rw [hact] at hvact
      exact Bool.false_ne_true hvact
    constructor
    · apply entries_count_zero
      intro v hv e he
      rw [mem_userEntries_userId he]
      exact hvid_false v hv
    · apply notifs_count_zero
      intro v hv n hn
      rw [mem_userNotifs_userId hn]
      exact hvid_false v hv

/-- Witness for the C7 theorem: an authenticated but inactive user alongside
an active one; no entry or notification carries the inactive user's id. -/
theorem active_query_requires_both_flags_witness :
    exUserInactive ∉ getAllActiveUsers [exUserA, exUserInactive] ∧
    (checkKeywordMatchesRun [exUserA, exUserInactive] exMsgAlpha).1.countP
      (fun e => e.userId == exUserInactive.id) = 0 := by
  have h := active_query_requires_both_flags [exUserA, exUserInactive] exMsgAlpha exUserInactive
  refine ⟨?_, (h.2 (by decide) (by decide) (by decide)).1⟩
  intro hmem
  have := h.1.mp hmem
  exact absurd this.2.2 (by decide)

/-- C3 counterexample: the claim asserts that substring containment makes
keyword "urgent" match message "urgency rises", but "urgent" is not a
substring of "urgency rises" (the shared prefix is only "urgen"), it does not
occur as a bounded word, and it is a single token, so `isKeywordMatch`
returns `false` on exactly that input. -/
theorem isKeywordMatch_urgency_counterexample :
    isKeywordMatch "urgency rises" "urgent" = false ∧
    substrStrategy "urgency rises" "urgent" = false ∧
    wordBoundaryStrategy "urgency rises" "urgent" = false ∧
    compoundStrategy "urgency rises" "urgent" = false := by
  refine ⟨by decide, by decide, by decide, by decide⟩

/-- C3 (amended): `isKeywordMatch` returns true iff one of the three
strategies succeeds — (a) substring containment of the lowercased trimmed
keyword, (b) whole-word occurrence, (c) every token of a multi-token keyword
present independently; substring containment alone suffices (keyword
"urgent" matches "urgently rises"), but keyword "urgent" does not match
"urgency rises" since "urgent" is not a substring of it, while the compound
keyword "urgent meeting" does match "the meeting is urgent today". -/
theorem isKeywordMatch_iff_strategies :
    (∀ messageText keyword : String,
      isKeywordMatch messageText keyword =
        (substrStrategy messageText keyword ||
         wordBoundaryStrategy messageText keyword ||
         compoundStrategy messageText keyword)) ∧
    isKeywordMatch "urgently rises" "urgent" = true ∧
    isKeywordMatch "urgency rises" "urgent" = false ∧
    isKeywordMatch "the meeting is urgent today" "urgent meeting" = true := by
  refine ⟨?_, by decide, by decide, by decide⟩
  intro m k
  simp only [isKeywordMatch, substrStrategy, wordBoundaryStrategy, compoundStrategy,
    String.toList]
  cases h1 : jsIncludes m (jsTrim (jsToLower k))
  · cases h2 : wordBoundaryTest (jsTrim (jsToLower k)) m
    · simp only [h1, h2, if_false, Bool.false_or]
      by_cases h3 : 1 < (splitWhitespace (jsTrim (jsToLower k)).data).length
      · simp only [h3, if_true, decide_True, Bool.true_and]
        by_cases h4 : ((splitWhitespace (jsTrim (jsToLower k)).data).all
            (fun w => includesL m.data w || wordBoundaryTestL w m.data)) = true
        · simp [h4]
        · simp [h4, Bool.eq_false_iff.mpr h4]
      · simp [h3]
    · simp [h1, h2]
  · simp [h1]

/-- C5: `sendKeywordNotification` never raises to its caller; with configured
notification groups every group in the list is attempted exactly once (the
attempt list equals the group list) no matter which sends fail, and with no
groups exactly one send is attempted, to the user's own telegram id. -/
theorem sendKeywordNotification_contract :
    ∀ (u : MUser) (sendOk : Int → Bool),
      (sendKeywordNotificationE u sendOk).2 = Except.ok () ∧
      (sendKeywordNotificationE u sendOk).1 =
        (if u.notificationGroups.isEmpty then [u.telegramId]
         else u.notificationGroups) := by
  intro u sendOk
  have hgroups : ∀ gs : List Int, sendToGroups gs sendOk = gs := by
    intro gs
    induction gs with
    | nil => rfl
    | cons g gs ih =>
      simp only [sendToGroups, botSendNotification]
      cases sendOk g <;> simp [ih]
  simp only [sendKeywordNotificationE, botSendNotification]
  cases h : u.notificationGroups.isEmpty <;>
    cases hs : sendOk u.telegramId <;> simp [h, hs, hgroups]

/-- C4: the live engine does not isolate a per-user failure. With two active
users whose keyword "alpha" matches the message, a ledger-write failure on the
first user aborts the whole pass at the single surrounding try/catch: nothing
at all is persisted or notified — in particular the second user's match, which
the failure-free run does record, is lost. -/
theorem checkKeywordMatches_abort_on_save_error :
    checkKeywordMatchesE [exUserA, exUserB] exMsgAlpha exSaveFailA
        (fun _ => true) = ([], []) ∧
    entryOf exUserB exMsgAlpha "alpha" ∈
      (checkKeywordMatchesRun [exUserA, exUserB] exMsgAlpha).1 := by
  refine ⟨by decide, by decide⟩

/-- C6 counterexample: for the window containing matches for the keywords "1"
then "0" (a tie at count 1), `getMatchStats` lists ("0", 1) before ("1", 1) —
JavaScript enumerates array-index object keys in ascending numeric order
before the stable sort runs — while the claim's first-seen insertion order
would list ("1", 1) first. -/
theorem getMatchStats_tie_order_counterexample :
    (getMatchStats exRowsNumericTie none 0).topKeywords = [("0", 1), ("1", 1)] ∧
    specTopKeywordsFirstSeen (windowMatches exRowsNumericTie none 0) =
      [("1", 1), ("0", 1)] ∧
    (getMatchStats exRowsNumericTie none 0).topKeywords ≠
      specTopKeywordsFirstSeen (windowMatches exRowsNumericTie none 0) := by
  refine ⟨by decide, by decide, by decide⟩

/-- C9 counterexample: `addKeyword` uses MongoDB `$addToSet`, which
deduplicates by exact equality only. Starting from the singleton keyword set
["foo"] — which satisfies the case-insensitive no-duplicate invariant —
adding "FOO" yields ["foo", "FOO"], which violates it. -/
theorem addKeyword_case_dup_counterexample :
    noCaseDup exUserFoo.keywords ∧
    (addKeyword exUserFoo "FOO").keywords = ["foo", "FOO"] ∧
    ¬ noCaseDup (addKeyword exUserFoo "FOO").keywords := by
  unfold noCaseDup
  refine ⟨by decide, by decide, by decide⟩

/-- C9 (amended): `addKeyword` preserves the no-duplicate invariant under
exact (case-sensitive) string comparison: if the keyword list has no exact
duplicates, it still has none after `addKeyword`, because `$addToSet` appends
only when no exactly-equal element is present. Case-insensitive duplicates
are not prevented. -/
theorem addKeyword_preserves_exact_nodup :
    ∀ (u : MUser) (k : String), u.keywords.Nodup → (addKeyword u k).keywords.Nodup := by
  intro u k h
  simp only [addKeyword, addToSet]
  by_cases hk : k ∈ u.keywords
  · simpa [hk] using h
  · simp only [hk, if_false]
    rw [List.nodup_append]
    refine ⟨h, List.nodup_singleton k, ?_⟩
    intro a ha hb
    rw [List.mem_singleton] at hb
    exact hk (hb ▸ ha)

/-- Witness for the amended C9 theorem at a concrete input. -/
theorem addKeyword_preserves_exact_nodup_witness :
    (addKeyword exUserFoo "bar").keywords.Nodup :=
  addKeyword_preserves_exact_nodup exUserFoo "bar" (by decide)

/-- C10: `setCharacterLimit` stores `Math.max(1, Math.min(1000, n))`: the
stored limit is always within [1, 1000], equals `n` itself when `n` is in
range, and clamps to the nearest bound otherwise. -/
theorem setCharacterLimit_clamps :
    ∀ (u : MUser) (n : Int),
      (1 ≤ (setCharacterLimit u n).characterLimit ∧
        (setCharacterLimit u n).characterLimit ≤ 1000) ∧
      (1 ≤ n → n ≤ 1000 → (setCharacterLimit u n).characterLimit = n) ∧
      (n < 1 → (setCharacterLimit u n).characterLimit = 1) ∧
      (1000 < n → (setCharacterLimit u n).characterLimit = 1000) := by
  intro u n
  simp only [setCharacterLimit, setCharacterLimitValue]
  rw [max_def, min_def]
  split <;> split <;> omega

/-- Witness for the C10 theorem at concrete inputs. -/
theorem setCharacterLimit_clamps_witness :
    (setCharacterLimit exUserFoo 5).characterLimit = 5 ∧
    (setCharacterLimit exUserFoo (-3)).characterLimit = 1 ∧
    (setCharacterLimit exUserFoo 2000).characterLimit = 1000 :=
  ⟨(setCharacterLimit_clamps exUserFoo 5).2.1 (by decide) (by decide),
   (setCharacterLimit_clamps exUserFoo (-3)).2.2.1 (by decide),
   (setCharacterLimit_clamps exUserFoo 2000).2.2.2 (by decide)⟩

/-- C8: an inbound event missing a required field — the message object
itself, the body (absent or not a string), the chat id, the message id, or
the sender id — is dropped by normalization: no user is evaluated, no ledger
entry is written and no notification attempted, for both the new-message and
the edited-message handler (which are identical); the handlers are total, so
no error is raised. -/
theorem ingestion_drops_incomplete_events :
    ∀ (db : List MUser) (e : RawEvent) (ct sn : Option String),
      (e.message = none ∨
        ∃ m, e.message = some m ∧
          (m.message = none ∨ m.message = some RawBody.nonString ∨
           m.chatId = none ∨ m.id = none ∨ m.senderId = none)) →
      normalizeEvent e ct sn = none ∧
      ingestNewMessage db e ct sn = ([], []) ∧
      ingestEditMessage db e ct sn = ([], []) := by
  intro db e ct sn h
  have hnorm : normalizeEvent e ct sn = none := by
    rcases h with h | ⟨m, hm, hfield⟩
    · simp [normalizeEvent, h]
    · simp only [normalizeEvent, hm]
      cases hb : m.message with
      | none => rfl
      | some b =>
        cases b with
        | nonString => rfl
        | str t =>
          rcases hfield with h1 | h1 | h1 | h1 | h1
          · rw [h1] at hb; exact Option.noConfusion hb
          · rw [h1] at hb
            injection hb with hbb
            exact RawBody.noConfusion hbb
          · cases ht : t.data.isEmpty
            · simp only [ht, if_false, h1]
              cases m.id <;> cases m.senderId <;> rfl
            · simp [ht]
          · cases ht : t.data.isEmpty
            · simp only [ht, if_false, h1]
              cases m.chatId <;> cases m.senderId <;> rfl
            · simp [ht]
          · cases ht : t.data.isEmpty
            · simp only [ht, if_false, h1]
              cases m.chatId <;> cases m.id <;> rfl
            · simp [ht]
  exact ⟨hnorm, by simp [ingestNewMessage, hnorm], by simp [ingestEditMessage, hnorm]⟩

/-- Witness for the C8 theorem: a concrete event with a string body but no
sender id produces no entries and no notifications. -/
theorem ingestion_drops_incomplete_events_witness :
    normalizeEvent exEventNoSender none none = none ∧
    ingestNewMessage [exUserA] exEventNoSender none none = ([], []) :=
  let h := ingestion_drops_incomplete_events [exUserA] exEventNoSender none none
    (Or.inr ⟨_, rfl, Or.inr (Or.inr (Or.inr (Or.inr rfl)))⟩)
  ⟨h.1, h.2.1⟩

theorem perm_insertDescCount (x : String × Nat) (l : List (String × Nat)) :
    (insertDescCount x l).Perm (x :: l) := by
  induction l with
  | nil => exact List.Perm.refl _
  | cons y ys ih =>
    simp only [insertDescCount]
    by_cases h : x.2 ≤ y.2
    · rw [if_pos h]
      exact (ih.cons y).trans (List.Perm.swap x y ys)
    · rw [if_neg h]

theorem stableSortByCountDesc_perm (l : List (String × Nat)) :
    (stableSortByCountDesc l).Perm l := by
  have go : ∀ (l acc : List (String × Nat)),
      (List.foldl (fun acc x => insertDescCount x acc) acc l).Perm (acc ++ l) := by
    intro l
    induction l with
    | nil => intro acc; simp
    | cons x xs ih =>
      intro acc
      have h1 := ih (insertDescCount x acc)
      have h2 : (insertDescCount x acc ++ xs).Perm ((x :: acc) ++ xs) :=
        (perm_insertDescCount x acc).append_right xs
      have h3 : ((x :: acc) ++ xs).Perm (acc ++ x :: xs) := List.perm_middle.symm
      exact (h1.trans h2).trans h3
  simpa [stableSortByCountDesc] using go l []

theorem pairwise_insertDescCount (x : String × Nat) (l : List (String × Nat))
    (h : List.Pairwise (fun a b : String × Nat => b.2 ≤ a.2) l) :
    List.Pairwise (fun a b : String × Nat => b.2 ≤ a.2) (insertDescCount x l) := by
  induction l with
  | nil => simp [insertDescCount]
  | cons y ys ih =>
    rcases List.pairwise_cons.mp h with ⟨hy, hys⟩
    simp only [insertDescCount]
    by_cases hc : x.2 ≤ y.2
    · rw [if_pos hc]
      apply List.pairwise_cons.mpr
      refine ⟨?_, ih hys⟩
      intro z hz
      rcases List.mem_cons.mp ((perm_insertDescCount x ys).mem_iff.mp hz) with rfl | hz'
      · exact hc
      · exact hy z hz'
    · rw [if_neg hc]
      apply List.pairwise_cons.mpr
      refine ⟨?_, h⟩
      intro z hz
      rcases List.mem_cons.mp hz with rfl | hz'
      · exact le_of_lt (not_le.mp hc)
      · exact le_trans (hy z hz') (le_of_lt (not_le.mp hc))

theorem stableSortByCountDesc_sorted (l : List (String × Nat)) :
    List.Pairwise (fun a b : String × Nat => b.2 ≤ a.2) (stableSortByCountDesc l) := by
  have go : ∀ (l acc : List (String × Nat)),
      List.Pairwise (fun a b : String × Nat => b.2 ≤ a.2) acc →
      List.Pairwise (fun a b : String × Nat => b.2 ≤ a.2)
        (List.foldl (fun acc x => insertDescCount x acc) acc l) := by
    intro l
    induction l with
    | nil => intro acc h; simpa using h
    | cons x xs ih => intro acc h; exact ih _ (pairwise_insertDescCount x acc h)
  exact go l [] (by simp)

theorem perm_insertAscByIndex (x : String × Nat) (l : List (String × Nat)) :
    (insertAscByIndex x l).Perm (x :: l) := by
  induction l with
  | nil => exact List.Perm.refl _
  | cons y ys ih =>
    simp only [insertAscByIndex]
    by_cases h : (jsArrayIndex y.1).getD 0 ≤ (jsArrayIndex x.1).getD 0
    · rw [if_pos h]
      exact (ih.cons y).trans (List.Perm.swap x y ys)
    · rw [if_neg h]

theorem sortAscByIndex_perm (l : List (String × Nat)) :
    (sortAscByIndex l).Perm l := by
  have go : ∀ (l acc : List (String × Nat)),
      (List.foldl (fun acc x => insertAscByIndex x acc) acc l).Perm (acc ++ l) := by
    intro l
    induction l with
    | nil => intro acc; simp
    | cons x xs ih =>
      intro acc
      have h1 := ih (insertAscByIndex x acc)
      have h2 : (insertAscByIndex x acc ++ xs).Perm ((x :: acc) ++ xs) :=
        (perm_insertAscByIndex x acc).append_right xs
      have h3 : ((x :: acc) ++ xs).Perm (acc ++ x :: xs) := List.perm_middle.symm
      exact (h1.trans h2).trans h3
  simpa [sortAscByIndex] using go l []

theorem jsObjectEntries_perm (l : List (String × Nat)) :
    (jsObjectEntries l).Perm l := by
  unfold jsObjectEntries
  have hcongr : l.filter (fun p => (jsArrayIndex p.1).isNone) =
      l.filter (fun p => !(jsArrayIndex p.1).isSome) :=
    List.filter_congr (fun a _ => by cases jsArrayIndex a.1 <;> rfl)
  have h1 : (sortAscByIndex (l.filter (fun p => (jsArrayIndex p.1).isSome)) ++
        l.filter (fun p => (jsArrayIndex p.1).isNone)).Perm
      (l.filter (fun p => (jsArrayIndex p.1).isSome) ++
        l.filter (fun p => (jsArrayIndex p.1).isNone)) :=
    (sortAscByIndex_perm _).append_right _
  rw [hcongr] at h1 ⊢
  exact h1.trans (List.filter_append_perm _ l)

theorem jsObjectEntries_of_no_index (l : List (String × Nat))
    (h : ∀ p ∈ l, jsArrayIndex p.1 = none) : jsObjectEntries l = l := by
  unfold jsObjectEntries
  have h1 : l.filter (fun p => (jsArrayIndex p.1).isSome) = [] := by
    apply List.filter_eq_nil_iff.mpr
    intro p hp
    rw [h p hp]
    simp
  have h2 : l.filter (fun p => (jsArrayIndex p.1).isNone) = l := by
    apply List.filter_eq_self.mpr
    intro p hp
    rw [h p hp]
    rfl
  rw [h1, h2]
  rfl

theorem keyCount_bumpCount_self (l : List (String × Nat)) (k : String) :
    keyCount (bumpCount l k) k = keyCount l k + 1 := by
  induction l with
  | nil => simp [bumpCount, keyCount]
  | cons p rest ih =>
    obtain ⟨k', c⟩ := p
    simp only [bumpCount]
    by_cases h : k' = k
    · rw [if_pos h]
      simp [keyCount, h]
    · rw [if_neg h]
      simp [keyCount, h, ih]

theorem keyCount_bumpCount_ne (l : List (String × Nat)) (k k' : String)
    (h : k' ≠ k) : keyCount (bumpCount l k) k' = keyCount l k' := by
  induction l with
  | nil =>
    simp only [bumpCount, keyCount]
    rw [if_neg (fun he => h he.symm)]
  | cons p rest ih =>
    obtain ⟨a, c⟩ := p
    simp only [bumpCount]
    by_cases ha : a = k
    · rw [if_pos ha]
      have hne : ¬ a = k' := fun he => h (he.symm.trans ha)
      show (if a = k' then c + 1 else keyCount rest k') =
        (if a = k' then c else keyCount rest k')
      rw [if_neg hne, if_neg hne]
    · rw [if_neg ha]
      show (if a = k' then c else keyCount (bumpCount rest k) k') =
        (if a = k' then c else keyCount rest k')
      by_cases ha' : a = k'
      · rw [if_pos ha', if_pos ha']
      · rw [if_neg ha', if_neg ha', ih]

theorem countsGo_keyCount (rows : List MatchRow) :
    ∀ (acc : List (String × Nat)) (k : String),
      keyCount (List.foldl (fun acc r => bumpCount acc r.keyword) acc rows) k =
        keyCount acc k + List.countP (fun r => r.keyword == k) rows := by
  induction rows with
  | nil => intro acc k; simp
  | cons r rows ih =>
    intro acc k
    simp only [List.foldl_cons, List.countP_cons]
    rw [ih]
    by_cases h : r.keyword = k
    · subst h
      rw [keyCount_bumpCount_self]
      simp only [beq_self_eq_true, if_true]
      omega
    · rw [keyCount_bumpCount_ne acc r.keyword k (fun he => h he.symm)]
      rw [if_neg (by simp [h])]
      omega

theorem countsOf_keyCount (rows : List MatchRow) (k : String) :
    keyCount (countsOf rows) k = List.countP (fun r => r.keyword == k) rows := by
  have := countsGo_keyCount rows [] k
  simpa [countsOf, keyCount] using this

theorem bumpCount_keys_of_mem (l : List (String × Nat)) (k : String)
    (h : k ∈ l.map Prod.fst) :
    (bumpCount l k).map Prod.fst = l.map Prod.fst := by
  induction l with
  | nil => simp at h
  | cons p rest ih =>
    obtain ⟨k', c⟩ := p
    simp only [bumpCount]
    by_cases hk : k' = k
    · rw [if_pos hk]
      rfl
    · rw [if_neg hk]
      have h' : k ∈ rest.map Prod.fst := by
        rcases List.mem_cons.mp h with he | h'
        · exact absurd he.symm hk
        · exact h'
      simp [ih h']

theorem bumpCount_keys_of_not_mem (l : List (String × Nat)) (k : String)
    (h : k ∉ l.map Prod.fst) :
    (bumpCount l k).map Prod.fst = l.map Prod.fst ++ [k] := by
  induction l with
  | nil => rfl
  | cons p rest ih =>
    obtain ⟨k', c⟩ := p
    simp only [bumpCount]
    by_cases hk : k' = k
    · exact absurd (by simp [hk]) h
    · rw [if_neg hk]
      have h' : k ∉ rest.map Prod.fst := fun hh => h (by simp [hh])
      simp [ih h']

theorem countsOf_keys_nodup (rows : List MatchRow) :
    ((countsOf rows).map Prod.fst).Nodup := by
  have go : ∀ (rows : List MatchRow) (acc : List (String × Nat)),
      (acc.map Prod.fst).Nodup →
      ((List.foldl (fun acc r => bumpCount acc r.keyword) acc rows).map Prod.fst).Nodup := by
    intro rows
    induction rows with
    | nil => intro acc h; simpa using h
    | cons r rows ih =>
      intro acc h
      apply ih
      by_cases hm : r.keyword ∈ acc.map Prod.fst
      · rw [bumpCount_keys_of_mem acc r.keyword hm]
        exact h
      · rw [bumpCount_keys_of_not_mem acc r.keyword hm]
        rw [List.nodup_append]
        refine ⟨h, List.nodup_singleton _, ?_⟩
        intro a ha hb
        rw [List.mem_singleton] at hb
        exact hm (hb ▸ ha)
  exact go rows [] (by simp)

theorem keyCount_of_mem_nodup (l : List (String × Nat))
    (hnodup : (l.map Prod.fst).Nodup) {k : String} {c : Nat}
    (hm : (k, c) ∈ l) : keyCount l k = c := by
  induction l with
  | nil => simp at hm
  | cons p rest ih =>
    obtain ⟨k', c'⟩ := p
    rw [List.map_cons, List.nodup_cons] at hnodup
    rcases List.mem_cons.mp hm with heq | hmem
    · injection heq with h1 h2
      subst h1
      subst h2
      simp [keyCount]
    · have hk' : ¬ k' = k := by
        intro he
        subst he
        have hmm : k' ∈ rest.map Prod.fst := List.mem_map_of_mem Prod.fst hmem
        exact hnodup.1 hmm
      show (if k' = k then c' else keyCount rest k) = c
      rw [if_neg hk']
      exact ih hnodup.2 hmem

theorem mem_countsOf_count {rows : List MatchRow} {k : String} {c : Nat}
    (hm : (k, c) ∈ countsOf rows) :
    c = List.countP (fun r => r.keyword == k) rows := by
  rw [← countsOf_keyCount rows k,
    keyCount_of_mem_nodup (countsOf rows) (countsOf_keys_nodup rows) hm]

/-- C6 (amended): `getMatchStats` returns the total match count over the
window, the rounded average message length and exactly zero with no matches,
and at most 10 keywords in descending count order whose counts are the true
frequencies; ties are broken by JavaScript object key enumeration order —
keywords that are canonical array-index strings are enumerated first in
ascending numeric order, and whenever no keyword in the window is such a
string the ties fall back to first-seen insertion order, as the spec states;
for window contents ["a", "a", "b"] the top keyword is ("a", 2) before
("b", 1). -/
theorem getMatchStats_amended :
    (∀ (rows : List MatchRow) (uid : Option String) (cutoff : Int),
      (getMatchStats rows uid cutoff).totalMatches =
        (windowMatches rows uid cutoff).length ∧
      ((windowMatches rows uid cutoff).length = 0 →
        (getMatchStats rows uid cutoff).averageMessageLength = 0) ∧
      (0 < (windowMatches rows uid cutoff).length →
        (getMatchStats rows uid cutoff).averageMessageLength =
          jsRound ((((((windowMatches rows uid cutoff).map
              (fun r => r.messageLength)).sum : Int) : ℚ)) /
            (((windowMatches rows uid cutoff).length : Nat) : ℚ))) ∧
      (getMatchStats rows uid cutoff).topKeywords.length ≤ 10 ∧
      List.Pairwise (fun a b : String × Nat => b.2 ≤ a.2)
        (getMatchStats rows uid cutoff).topKeywords ∧
      (∀ p ∈ (getMatchStats rows uid cutoff).topKeywords,
        p.2 = List.countP (fun r => r.keyword == p.1) (windowMatches rows uid cutoff)) ∧
      ((∀ p ∈ countsOf (windowMatches rows uid cutoff), jsArrayIndex p.1 = none) →
        (getMatchStats rows uid cutoff).topKeywords =
          specTopKeywordsFirstSeen (windowMatches rows uid cutoff))) ∧
    (getMatchStats exRowsAAB none 0).topKeywords = [("a", 2), ("b", 1)] := by
  refine ⟨?_, by decide⟩
  intro rows uid cutoff
  refine ⟨rfl, ?_, ?_, ?_, ?_, ?_, ?_⟩
  · intro h
    dsimp only [getMatchStats]
    rw [if_neg (by omega)]
  · intro h
    dsimp only [getMatchStats]
    rw [if_pos h]
  · dsimp only [getMatchStats]
    rw [List.length_take]
    exact min_le_left _ _
  · dsimp only [getMatchStats]
    exact (stableSortByCountDesc_sorted _).sublist (List.take_sublist _ _)
  · intro p hp
    dsimp only [getMatchStats] at hp
    have hp1 := List.take_subset _ _ hp
    have hp2 := (stableSortByCountDesc_perm _).mem_iff.mp hp1
    have hp3 := (jsObjectEntries_perm _).mem_iff.mp hp2
    obtain ⟨k, c⟩ := p
    exact mem_countsOf_count hp3
  · intro hno
    dsimp only [getMatchStats, specTopKeywordsFirstSeen]
    rw [jsObjectEntries_of_no_index _ hno]

/-- Witness for the amended C6 theorem: the window ["a", "a", "b"] holds no
array-index keyword, so the code's top keywords coincide with the spec's
first-seen ordering there. -/
theorem getMatchStats_amended_witness :
    (getMatchStats exRowsAAB none 0).topKeywords =
      specTopKeywordsFirstSeen (windowMatches exRowsAAB none 0) := by
  have h := getMatchStats_amended.1 exRowsAAB none 0
  exact h.2.2.2.2.2.2 (by decide)

end KeywordBot
